import Mathlib

/-!
Verification development for the contract-compliance checking pipeline.

The definitions below are a shallow embedding of the repository's Python
code, chiefly `src/compliance_checker.py` (class `ComplianceChecker`) and
the batch loop plus result summary in `app.py`.  Python dicts are embedded
as association lists with Python's insert-or-overwrite-in-place update
semantics; JSON values as an inductive type; the two external collaborators
(vector-store similarity search and the text-generation call) as function
parameters returning `Except`, whose `.error` case models a raised
exception.  `re.search` with the fixed pattern
`\x7b[^\x7b\x7d]*\x7b.*\x7d[^\x7b\x7d]*\x7d|\x7b.*\x7d` (DOTALL) is embedded
as the explicit string computation `regex_extract` derived from the
backtracking semantics of that pattern, and `json.loads` as the recursive
descent decoder `json_loads`.
-/

set_option autoImplicit false

/-- A JSON value, as produced by `json.loads`.  Numbers keep their source
lexeme; objects are association lists in Python-dict order. -/
inductive Json where
  | null
  | bool (b : Bool)
  | num (lexeme : String)
  | str (s : String)
  | arr (items : List Json)
  | obj (fields : List (String × Json))
deriving Repr

mutual

/-- Boolean equality of JSON values (models Python `==` on decoded values,
up to numeric lexeme identity). -/
def Json.beq : Json → Json → Bool
  | .null, .null => true
  | .bool a, .bool b => a == b
  | .num a, .num b => a == b
  | .str a, .str b => a == b
  | .arr a, .arr b => Json.beqItems a b
  | .obj a, .obj b => Json.beqFields a b
  | _, _ => false

/-- Pointwise equality of JSON arrays. -/
def Json.beqItems : List Json → List Json → Bool
  | [], [] => true
  | x :: xs, y :: ys => Json.beq x y && Json.beqItems xs ys
  | _, _ => false

/-- Pointwise equality of JSON object field lists. -/
def Json.beqFields : List (String × Json) → List (String × Json) → Bool
  | [], [] => true
  | (k, v) :: xs, (l, w) :: ys => k == l && Json.beq v w && Json.beqFields xs ys
  | _, _ => false

end

/-- A Python dict with string keys, kept in insertion order. -/
abbrev Dict (α : Type) : Type := List (String × α)

/-- Python `d[k] = v`: overwrite in place if the key exists, else append. -/
def dictInsert {α : Type} (k : String) (v : α) : Dict α → Dict α
  | [] => [(k, v)]
  | (k', v') :: rest =>
      if k' = k then (k, v) :: rest else (k', v') :: dictInsert k v rest

/-- Python `d.get(k)` / `d[k]`: the value stored at key `k`, if any. -/
def dictGet {α : Type} (k : String) : Dict α → Option α
  | [] => none
  | (k', v') :: rest => if k' = k then some v' else dictGet k rest

/-- The keys of a dict, in insertion order (Python `d.keys()`). -/
def dictKeys {α : Type} (d : Dict α) : List String := d.map Prod.fst

/-- Whether a character is one of the two brace characters the extraction
pattern's character classes single out. -/
def isBrace (c : Char) : Bool := c = '{' || c = '}'

/-- Worker for `aTailEnd`: walk the list keeping the previous brace seen
and the best candidate end index so far. -/
def aTailEndGo : List Char → Nat → Option Char → Option Nat → Option Nat
  | [], _, _, best => best
  | c :: cs, idx, prev, best =>
      if c = '}' then
        aTailEndGo cs (idx + 1) (some '}')
          (if prev = some '}' then some idx else best)
      else if c = '{' then
        aTailEndGo cs (idx + 1) (some '{') best
      else
        aTailEndGo cs (idx + 1) prev best

/-- End position of the greedy match of `.*\x7d[^\x7b\x7d]*\x7d` against a
prefix of `t` (DOTALL): the index in `t` of the second brace of the
rightmost pair of consecutive closing braces with no brace between them,
if any.  This realises the backtracking search of the first regex
alternative's tail. -/
def aTailEnd (t : List Char) : Option Nat :=
  aTailEndGo t 0 none none

/-- Worker for `lastCloseIndex`. -/
def lastCloseGo : List Char → Nat → Option Nat → Option Nat
  | [], _, best => best
  | c :: cs, idx, best =>
      lastCloseGo cs (idx + 1) (if c = '}' then some idx else best)

/-- Index of the last `'\x7d'` in a list, if any (the greedy end of the
second regex alternative `\x7b.*\x7d`). -/
def lastCloseIndex (cs : List Char) : Option Nat :=
  lastCloseGo cs 0 none

/-- The match of the alternation
`\x7b[^\x7b\x7d]*\x7b.*\x7d[^\x7b\x7d]*\x7d|\x7b.*\x7d` at a position whose
`'\x7b'` has already been consumed: `cs` is the text after that opening
brace.  The first alternative is tried first, as `re` does; its leading
`[^\x7b\x7d]*` is forced to the maximal brace-free run, after which a
literal `'\x7b'` must follow, and its tail is resolved by `aTailEnd`.
Otherwise the second alternative matches up to the last `'\x7d'`. -/
def matchAt (cs : List Char) : Option (List Char) :=
  let run := cs.takeWhile (fun c => !isBrace c)
  let rest := cs.dropWhile (fun c => !isBrace c)
  let aEnd : Option Nat :=
    match rest with
    | c :: rest3 =>
        if c = '{' then (aTailEnd rest3).map (fun e => run.length + 1 + e) else none
    | [] => none
  match aEnd with
  | some e => some ('{' :: cs.take (e + 1))
  | none =>
      match lastCloseIndex cs with
      | some j => some ('{' :: cs.take (j + 1))
      | none => none

/-- `re.search` with the extraction pattern: the scan tries successive start
positions; both alternatives begin with a literal `'\x7b'`, and if no
`'\x7d'` follows the first `'\x7b'` of the text then no later start can
match either, so the whole search fails. -/
def regex_extract : List Char → Option (List Char)
  | [] => none
  | c :: cs => if c = '{' then matchAt cs else regex_extract cs

example : regex_extract "abc".toList = none := by decide
example : regex_extract "\x7b\"a\": 1\x7d".toList = some "\x7b\"a\": 1\x7d".toList := by
  decide
example :
    regex_extract "a \x7bnote\x7d first. \x7b\"a\": 1\x7d".toList
      = some "\x7bnote\x7d first. \x7b\"a\": 1\x7d".toList := by decide
example :
    regex_extract "```json\n\x7b\"a\": 1\x7d\n```".toList
      = some "\x7b\"a\": 1\x7d".toList := by decide
example :
    regex_extract "\x7b\"a\":\x7b\"b\":1\x7d,\"c\":2\x7d".toList
      = some "\x7b\"a\":\x7b\"b\":1\x7d,\"c\":2\x7d".toList := by decide

/-- JSON whitespace, as skipped by `json.loads`. -/
def isJsonWs (c : Char) : Bool := c = ' ' || c = '\t' || c = '\n' || c = '\r'

/-- Drop leading JSON whitespace. -/
def skipWs (cs : List Char) : List Char := cs.dropWhile isJsonWs

/-- Decimal digit test. -/
def isDigitCh (c : Char) : Bool := '0' ≤ c && c ≤ '9'

/-- Value of a hexadecimal digit, via its code point. -/
def hexDigitVal (c : Char) : Option Nat :=
  let n := c.toNat
  if 48 ≤ n && n ≤ 57 then some (n - 48)
  else if 97 ≤ n && n ≤ 102 then some (n - 87)
  else if 65 ≤ n && n ≤ 70 then some (n - 55)
  else none

/-- The single-character escapes `json.loads` accepts after a backslash,
mapped to the character they denote. -/
def escCharMap (c : Char) : Option Char :=
  if c = '"' then some '"'
  else if c = '\\' then some '\\'
  else if c = '/' then some '/'
  else if c = 'b' then some (Char.ofNat 8)
  else if c = 'f' then some (Char.ofNat 12)
  else if c = 'n' then some '\n'
  else if c = 'r' then some '\r'
  else if c = 't' then some '\t'
  else none

/-- Match a literal keyword at the front of the text, returning the
remainder on success. -/
def stripKeyword : List Char → List Char → Option (List Char)
  | [], rest => some rest
  | _ :: _, [] => none
  | k :: ks, c :: cs => if c = k then stripKeyword ks cs else none

/-- Prepend a decoded character to the string being accumulated by
`parseStringChars`. -/
def withDecoded (d : Char) (res : Option (List Char × List Char)) :
    Option (List Char × List Char) :=
  res.map (fun p => (d :: p.1, p.2))

/-- Decode the body of a JSON string after its opening quote: strict mode,
so unescaped control characters are rejected; the standard escapes and
`\uXXXX` are decoded.  Returns the decoded characters and the text after
the closing quote. -/
def parseStringChars : Nat → List Char → Option (List Char × List Char)
  | 0, _ => none
  | _, [] => none
  | fuel + 1, c :: cs =>
      if c = '"' then some ([], cs)
      else if c = '\\' then
        match cs with
        | [] => none
        | e :: r =>
            if e = 'u' then
              match r with
              | h1 :: h2 :: h3 :: h4 :: r2 =>
                  match hexDigitVal h1, hexDigitVal h2, hexDigitVal h3, hexDigitVal h4 with
                  | some a, some b, some c3, some d =>
                      withDecoded (Char.ofNat (a * 4096 + b * 256 + c3 * 16 + d))
                        (parseStringChars fuel r2)
                  | _, _, _, _ => none
              | _ => none
            else
              match escCharMap e with
              | some d => withDecoded d (parseStringChars fuel r)
              | none => none
      else if c.toNat < 32 then none
      else withDecoded c (parseStringChars fuel cs)

/-- Lex a JSON number: optional minus, integer part without leading zeros,
optional fraction and exponent.  Returns the lexeme and the remaining
text. -/
def lexNumber (cs : List Char) : Option (List Char × List Char) :=
  let (sign, cs1) :=
    match cs with
    | '-' :: r => (['-'], r)
    | _ => (([] : List Char), cs)
  match cs1 with
  | [] => none
  | d :: r =>
      if d = '0' then
        let (frac, r2) := lexFracExp r
        some (sign ++ [d] ++ frac, r2)
      else if isDigitCh d then
        let digits := r.takeWhile isDigitCh
        let r1 := r.dropWhile isDigitCh
        let (frac, r2) := lexFracExp r1
        some (sign ++ [d] ++ digits ++ frac, r2)
      else none
where
  lexFracExp (cs : List Char) : List Char × List Char :=
    let (fracPart, csA) :=
      match cs with
      | '.' :: r =>
          let ds := r.takeWhile isDigitCh
          if ds.isEmpty then (([] : List Char), cs)
          else ('.' :: ds, r.dropWhile isDigitCh)
      | _ => ([], cs)
    match csA with
    | e :: r =>
        if e = 'e' || e = 'E' then
          let (sgn, r1) :=
            match r with
            | '+' :: r' => (['+'], r')
            | '-' :: r' => (['-'], r')
            | _ => (([] : List Char), r)
          let ds := r1.takeWhile isDigitCh
          if ds.isEmpty then (fracPart, csA)
          else (fracPart ++ [e] ++ sgn ++ ds, r1.dropWhile isDigitCh)
        else (fracPart, csA)
    | [] => (fracPart, csA)

mutual

/-- Decode one JSON value from the front of the text (leading whitespace
already skipped by the caller where `json.loads` skips it). -/
def parseValue : Nat → List Char → Option (Json × List Char)
  | 0, _ => none
  | fuel + 1, cs =>
      match stripKeyword "null".toList cs with
      | some r => some (.null, r)
      | none =>
      match stripKeyword "true".toList cs with
      | some r => some (.bool true, r)
      | none =>
      match stripKeyword "false".toList cs with
      | some r => some (.bool false, r)
      | none =>
      match cs with
      | '"' :: r =>
          (parseStringChars r.length r).map (fun p => (.str p.1.asString, p.2))
      | '[' :: r =>
          match skipWs r with
          | ']' :: r2 => some (.arr [], r2)
          | r1 => parseItems fuel r1 []
      | '{' :: r =>
          match skipWs r with
          | '}' :: r2 => some (.obj [], r2)
          | r1 => parseMembers fuel r1 []
      | _ => (lexNumber cs).map (fun p => (.num p.1.asString, p.2))

/-- Decode the comma-separated items of a JSON array, accumulating in
order; expects the next item at the front. -/
def parseItems : Nat → List Char → List Json → Option (Json × List Char)
  | 0, _, _ => none
  | fuel + 1, cs, acc =>
      match parseValue fuel (skipWs cs) with
      | none => none
      | some (v, rest) =>
          match skipWs rest with
          | ',' :: r2 => parseItems fuel r2 (acc ++ [v])
          | ']' :: r2 => some (.arr (acc ++ [v]), r2)
          | _ => none

/-- Decode the comma-separated members of a JSON object; duplicate keys
overwrite in place, as in a Python dict. -/
def parseMembers : Nat → List Char → Dict Json → Option (Json × List Char)
  | 0, _, _ => none
  | fuel + 1, cs, acc =>
      match skipWs cs with
      | '"' :: r =>
          match parseStringChars r.length r with
          | none => none
          | some (key, r1) =>
              match skipWs r1 with
              | ':' :: r2 =>
                  match parseValue fuel (skipWs r2) with
                  | none => none
                  | some (v, rest) =>
                      let acc2 := dictInsert key.asString v acc
                      match skipWs rest with
                      | ',' :: r3 => parseMembers fuel r3 acc2
                      | '}' :: r3 => some (.obj acc2, r3)
                      | _ => none
              | _ => none
      | _ => none

end

/-- `json.loads`: decode a complete JSON document, allowing only
whitespace after the value. -/
def json_loads (s : String) : Option Json :=
  let cs := s.toList
  match parseValue (cs.length + 1) (skipWs cs) with
  | some (j, rest) => if (skipWs rest).isEmpty then some j else none
  | none => none

/-- A compliance rule from `RULES_DEFINITION` (`rule_definition` dicts in
the source); the rule id is the catalog key and travels separately, as in
the code. -/
structure Rule where
  name : String
  description : String
  category : String
  severity : String
deriving Repr, DecidableEq

/-- `ComplianceChecker._build_compliance_query`. -/
def build_compliance_query (rule : Rule) : String :=
  rule.description ++ " What specific clauses or language addresses this requirement?"

/-- `ComplianceChecker.retrieve_relevant_sections`: the vector-store
similarity search is the function argument `search`; a raised exception
(`.error`) is caught, logged and turned into the empty list. -/
def retrieve_relevant_sections (search : String → Nat → Except String (List String))
    (query : String) (k : Nat) : List String :=
  match search query k with
  | .ok docs => docs
  | .error _ => []

/-- `ComplianceChecker._build_context`. -/
def build_context (sections : List String) : String :=
  if sections.isEmpty then "No relevant sections found."
  else String.intercalate "\n\n" sections

/-- `ComplianceChecker._build_prompt`. -/
def build_prompt (rule_id : String) (rule : Rule) (context : String) : String :=
  "\n        Analyze the contract sections and determine compliance with this rule:\n        \n        RULE: "
    ++ rule.name
    ++ "\n        DESCRIPTION: " ++ rule.description
    ++ "\n        CATEGORY: " ++ rule.category
    ++ "\n        SEVERITY: " ++ rule.severity
    ++ "\n        \n        CONTRACT SECTIONS:\n        " ++ context
    ++ "\n        \n        Provide JSON response with:\n        - compliance_status: [Compliant/Non-Compliant/Partially Compliant]\n        - evidence: specific text supporting assessment\n        - confidence: [High/Medium/Low]\n        - remediation: steps to fix if non-compliant\n        \n        \x7b\n            \"rule_id\": \""
    ++ rule_id
    ++ "\",\n            \"rule_name\": \"" ++ rule.name
    ++ "\",\n            \"compliance_status\": \"status\",\n            \"evidence\": \"text evidence\",\n            \"confidence\": \"confidence level\",\n            \"remediation\": \"remediation steps\",\n            \"category\": \"" ++ rule.category
    ++ "\",\n            \"severity\": \"" ++ rule.severity
    ++ "\"\n        \x7d\n        "

/-- Worker for `pyReplace`: fuel-based so it computes by reduction; one
unit of fuel per character position examined. -/
def replaceFuel (pat repl : List Char) : Nat → List Char → List Char
  | 0, s => s
  | _ + 1, [] => []
  | fuel + 1, c :: cs =>
      if pat.isPrefixOf (c :: cs) then
        repl ++ replaceFuel pat repl fuel ((c :: cs).drop pat.length)
      else c :: replaceFuel pat repl fuel cs

/-- Python `str.replace`: replace every occurrence of `pat`, scanning left
to right without overlap. -/
def pyReplace (s pat repl : String) : String :=
  (replaceFuel pat.toList repl.toList s.toList.length s.toList).asString

/-- The whitespace characters Python `str.strip()` removes. -/
def isPyWs (c : Char) : Bool :=
  c = ' ' || c = '\t' || c = '\n' || c = '\r' || c = Char.ofNat 11 || c = Char.ofNat 12

/-- Python `str.strip()`: drop leading and trailing whitespace. -/
def pyStrip (s : String) : String :=
  (((s.toList.dropWhile isPyWs).reverse.dropWhile isPyWs).reverse).asString

/-- `ComplianceChecker._parse_response`: regex-extract a JSON-looking
substring, delete every occurrence of the fence markers inside it, strip
surrounding whitespace, and decode.  The `.error` payload is the message of
the `ValueError` the Python method raises (and which
`check_rule_compliance` catches). -/
def parse_response (response_text : String) : Except String Json :=
  match regex_extract response_text.toList with
  | none => .error "Failed to parse response: No JSON found in response"
  | some sub =>
      let cleaned := pyStrip (pyReplace (pyReplace sub.asString "```json" "") "```" "")
      match json_loads cleaned with
      | some j => .ok j
      | none => .error "Failed to parse response: JSON decode error"

/-- `ComplianceChecker._create_error_response` in
`src/compliance_checker.py`: note that no `relevant_sections` key is
included. -/
def create_error_response (rule_id : String) (rule : Rule) (error : String) : Dict Json :=
  [ ("rule_id", .str rule_id),
    ("rule_name", .str rule.name),
    ("compliance_status", .str "Error"),
    ("evidence", .str ("Analysis error: " ++ error)),
    ("confidence", .str "Low"),
    ("remediation", .str "Check the contract manually"),
    ("category", .str rule.category),
    ("severity", .str rule.severity) ]

/-- `ComplianceChecker._create_error_response` in `app.py` (the inline
variant): same fields plus an empty `relevant_sections` list. -/
def app_create_error_response (rule_id : String) (rule : Rule) (error : String) : Dict Json :=
  [ ("rule_id", .str rule_id),
    ("rule_name", .str rule.name),
    ("compliance_status", .str "Error"),
    ("evidence", .str ("Error during analysis: " ++ error)),
    ("confidence", .str "Low"),
    ("remediation", .str "Unable to provide remediation due to analysis error"),
    ("category", .str rule.category),
    ("severity", .str rule.severity),
    ("relevant_sections", .arr []) ]

/-- The body of `check_rule_compliance`'s `try` block and `except` handler,
given the already-retrieved sections: build the context and prompt, invoke
the generation call, parse, and attach `relevant_sections`; any raised
exception (generation failure, parse failure, or item assignment on a
non-dict) becomes the error response. -/
def finish_check (generate : String → Except String String)
    (rule_id : String) (rule : Rule) (relevant_sections : List String) : Dict Json :=
  let context := build_context relevant_sections
  let prompt := build_prompt rule_id rule context
  match generate prompt with
  | .error e => create_error_response rule_id rule e
  | .ok text =>
      match parse_response text with
      | .error e => create_error_response rule_id rule e
      | .ok (Json.obj fields) =>
          dictInsert "relevant_sections" (Json.arr (relevant_sections.map Json.str)) fields
      | .ok _ =>
          create_error_response rule_id rule "TypeError: item assignment on non-dict"

/-- `ComplianceChecker.check_rule_compliance`: build the query, retrieve
(k = 5), then run the guarded generation/parse step. -/
def check_rule_compliance (search : String → Nat → Except String (List String))
    (generate : String → Except String String)
    (rule_id : String) (rule : Rule) : Dict Json :=
  let query := build_compliance_query rule
  let relevant_sections := retrieve_relevant_sections search query 5
  finish_check generate rule_id rule relevant_sections

/-- The batch loop of `app.py`'s `main`: iterate the selected rules in
order, check each, and store the result dict under the rule id. -/
def run_compliance_checks (search : String → Nat → Except String (List String))
    (generate : String → Except String String)
    (rules : Dict Rule) : Dict (Dict Json) :=
  rules.foldl
    (fun results p => dictInsert p.1 (check_rule_compliance search generate p.1 p.2) results)
    []

/-- `RULES_DEFINITION` from `app.py`. -/
def RULES_DEFINITION : Dict Rule :=
  [ ("confidentiality_clause",
      ⟨"Confidentiality Clause Presence",
       "Document must contain a confidentiality clause protecting sensitive information",
       "Confidentiality", "High"⟩),
    ("term_duration",
      ⟨"Contract Term Duration",
       "Contract must specify a clear start and end date or duration",
       "Term", "High"⟩),
    ("termination_clause",
      ⟨"Termination Clause",
       "Document must include termination conditions and notice period",
       "Termination", "High"⟩),
    ("governing_law",
      ⟨"Governing Law Clause",
       "Contract must specify the governing law jurisdiction",
       "Legal", "Medium"⟩),
    ("indemnification",
      ⟨"Indemnification Clause",
       "Must include indemnification provisions for liability protection",
       "Liability", "High"⟩),
    ("ip_ownership",
      ⟨"Intellectual Property Ownership",
       "Clearly defines ownership of intellectual property created during contract",
       "Intellectual Property", "High"⟩),
    ("payment_terms",
      ⟨"Payment Terms",
       "Specifies payment amounts, schedules, and methods",
       "Financial", "High"⟩),
    ("warranties",
      ⟨"Warranties and Representations",
       "Includes appropriate warranties and representations",
       "Liability", "Medium"⟩),
    ("limitation_liability",
      ⟨"Limitation of Liability",
       "Includes reasonable limitation of liability clauses",
       "Liability", "Medium"⟩),
    ("dispute_resolution",
      ⟨"Dispute Resolution Mechanism",
       "Specifies dispute resolution process (arbitration, mediation, litigation)",
       "Legal", "Medium"⟩),
    ("assignment_clause",
      ⟨"Assignment Clause",
       "Addresses whether contract can be assigned to third parties",
       "Transfer", "Low"⟩),
    ("force_majeure",
      ⟨"Force Majeure Clause",
       "Includes force majeure provisions for unforeseen circumstances",
       "Risk", "Medium"⟩),
    ("notices",
      ⟨"Notices Provision",
       "Specifies how formal notices should be delivered",
       "Administrative", "Low"⟩),
    ("entire_agreement",
      ⟨"Entire Agreement Clause",
       "States that the document represents the entire agreement",
       "Legal", "Medium"⟩),
    ("severability",
      ⟨"Severability Clause",
       "Includes severability clause for invalid provisions",
       "Legal", "Low"⟩),
    ("amendment_process",
      ⟨"Amendment Process",
       "Specifies how the contract can be amended",
       "Administrative", "Low"⟩) ]

/-- `status_counts[status] = status_counts.get(status, 0) + 1` in
`display_results`: bump the count stored under a key, appending the key
with count 1 if absent. -/
def bumpCount (k : Json) : List (Json × Nat) → List (Json × Nat)
  | [] => [(k, 1)]
  | (k', n) :: rest =>
      if Json.beq k' k then (k', n + 1) :: rest else (k', n) :: bumpCount k rest

/-- The summary-statistics loop of `display_results`: fold over the report
values, counting by `result['compliance_status']`.  `none` models the
`KeyError` raised when a result lacks that key. -/
def summary_counts (report : Dict (Dict Json)) : Option (List (Json × Nat)) :=
  report.foldl
    (fun acc p =>
      match acc, dictGet "compliance_status" p.2 with
      | some counts, some s => some (bumpCount s counts)
      | _, _ => none)
    (some [])

/-- `status_counts.get(s, 0)` on the accumulated counts: the stored count,
or zero for a key never seen. -/
def countLookup (k : Json) : List (Json × Nat) → Nat
  | [] => 0
  | (k', n) :: rest => if Json.beq k' k then n else countLookup k rest

/-- Whether the text contains an opening brace with a closing brace
somewhere after it — exactly the condition under which the extraction
regex finds a match. -/
def hasOpenClose : List Char → Bool
  | [] => false
  | c :: cs => if c = '{' then cs.contains '}' else hasOpenClose cs

/-- The first catalog rule, used as a concrete fixture. -/
def ruleConf : Rule :=
  ⟨"Confidentiality Clause Presence",
   "Document must contain a confidentiality clause protecting sensitive information",
   "Confidentiality", "High"⟩

/-- A document store returning two chunks for every query. -/
def searchTwoChunks : String → Nat → Except String (List String) :=
  fun _ _ => .ok ["chunk one", "chunk two"]

/-- A document store returning no chunks. -/
def searchNoChunks : String → Nat → Except String (List String) :=
  fun _ _ => .ok []

/-- A document store whose similarity search raises. -/
def searchRaising : String → Nat → Except String (List String) :=
  fun _ _ => .error "similarity search unavailable"

/-- A generation call that always raises. -/
def genRaising : String → Except String String :=
  fun _ => .error "503 quota exceeded"

/-- A model response echoing a category and severity different from the
rule's. -/
def respWrongEcho : String :=
  "\x7b\"category\": \"X\", \"severity\": \"Low\", \"compliance_status\": \"Compliant\"\x7d"

/-- A model response whose compliance_status and confidence lie outside the
enumerated sets. -/
def respOutOfSet : String :=
  "\x7b\"compliance_status\": \"Banana\", \"confidence\": \"Sure\"\x7d"

/-- A model response whose evidence value contains a code-fence marker, and
another key whose value contains the json fence marker. -/
def respFenceInValue : String :=
  "\x7b\"evidence\": \"code ``` here\", \"remediation\": \"x ```json y\"\x7d"

/-- A syntactically valid JSON object text. -/
def respValidJson : String :=
  "\x7b\"compliance_status\": \"Compliant\", \"confidence\": \"High\"\x7d"

/-- `respValidJson` wrapped in surrounding prose that itself contains a
brace-delimited aside. -/
def respValidJsonInBracedProse : String :=
  "Sure thing \x7bas requested\x7d: " ++ respValidJson

/-- Brace-free leading prose with an opening code fence. -/
def proseBefore : String := "Here is the JSON you asked for:\n```json\n"

/-- Brace-free trailing prose with a closing code fence. -/
def proseAfter : String := "\n```\nHope this helps!"

/-- All keys in a counts list are JSON strings. -/
def StrKeys (l : List (Json × Nat)) : Prop :=
  ∀ p ∈ l, ∃ s : String, p.1 = Json.str s

theorem dictGet_dictInsert_self {α : Type} (k : String) (v : α) (d : Dict α) :
    dictGet k (dictInsert k v d) = some v := by
  induction d with
  | nil => simp [dictInsert, dictGet]
  | cons p rest ih =>
      obtain ⟨k', v'⟩ := p
      by_cases h : k' = k
      · simp [dictInsert, dictGet, h]
      · simp [dictInsert, dictGet, h, ih]

theorem dictGet_dictInsert_ne {α : Type} {k k' : String} (v : α) (d : Dict α)
    (h : k' ≠ k) : dictGet k (dictInsert k' v d) = dictGet k d := by
  induction d with
  | nil => simp [dictInsert, dictGet, h]
  | cons p rest ih =>
      obtain ⟨k0, v0⟩ := p
      by_cases h0 : k0 = k'
      · subst h0
        simp [dictInsert, dictGet, h]
      · by_cases h1 : k0 = k
        · simp [dictInsert, dictGet, h0, h1, Ne.symm h]
        · simp [dictInsert, dictGet, h0, h1, ih]

theorem dictInsert_fresh {α : Type} {k : String} (v : α) {d : Dict α}
    (h : k ∉ dictKeys d) : dictInsert k v d = d ++ [(k, v)] := by
  induction d with
  | nil => simp [dictInsert]
  | cons p rest ih =>
      obtain ⟨k0, v0⟩ := p
      simp only [dictKeys, List.map_cons, List.mem_cons] at h
      push_neg at h
      simp [dictInsert, h.1, ih (by simpa [dictKeys] using h.2), Ne.symm h.1]

theorem check_rule_eq_finish (search : String → Nat → Except String (List String))
    (generate : String → Except String String) (rule_id : String) (rule : Rule) :
    check_rule_compliance search generate rule_id rule
      = finish_check generate rule_id rule
          (retrieve_relevant_sections search (build_compliance_query rule) 5) := rfl

theorem finish_check_gen_error (generate : String → Except String String)
    (rule_id : String) (rule : Rule) (sections : List String) (e : String)
    (h : generate (build_prompt rule_id rule (build_context sections)) = .error e) :
    finish_check generate rule_id rule sections = create_error_response rule_id rule e := by
  simp [finish_check, h]

theorem finish_check_parse_error (generate : String → Except String String)
    (rule_id : String) (rule : Rule) (sections : List String) (t e : String)
    (hg : generate (build_prompt rule_id rule (build_context sections)) = .ok t)
    (hp : parse_response t = .error e) :
    finish_check generate rule_id rule sections = create_error_response rule_id rule e := by
  simp [finish_check, hg, hp]

theorem finish_check_success (generate : String → Except String String)
    (rule_id : String) (rule : Rule) (sections : List String) (t : String)
    (fields : Dict Json)
    (hg : generate (build_prompt rule_id rule (build_context sections)) = .ok t)
    (hp : parse_response t = .ok (Json.obj fields)) :
    finish_check generate rule_id rule sections
      = dictInsert "relevant_sections" (Json.arr (sections.map Json.str)) fields := by
  simp [finish_check, hg, hp]

theorem status_create_error_response (rule_id : String) (rule : Rule) (e : String) :
    dictGet "compliance_status" (create_error_response rule_id rule e)
      = some (Json.str "Error") := by
  simp [create_error_response, dictGet]

/-- Claim C2 (confirmed): `check_rule_compliance` is a total function of its
inputs — no failure escapes it — and in particular when the generation call
raises it returns the synthetic error verdict, whose `compliance_status` is
the string `"Error"`; a response that fails to parse resolves to the same
error verdict rather than an escaping exception. -/
theorem C2_check_rule_fail_soft (search : String → Nat → Except String (List String))
    (generate : String → Except String String) (rule_id : String) (rule : Rule) :
    (∀ e, generate (build_prompt rule_id rule
          (build_context (retrieve_relevant_sections search (build_compliance_query rule) 5)))
        = .error e →
      check_rule_compliance search generate rule_id rule
        = create_error_response rule_id rule e) ∧
    (∀ t e, generate (build_prompt rule_id rule
          (build_context (retrieve_relevant_sections search (build_compliance_query rule) 5)))
        = .ok t → parse_response t = .error e →
      check_rule_compliance search generate rule_id rule
        = create_error_response rule_id rule e) ∧
    (∀ e, dictGet "compliance_status" (create_error_response rule_id rule e)
        = some (Json.str "Error")) := by
  refine ⟨fun e he => ?_, fun t e hg hp => ?_, fun e => status_create_error_response _ _ e⟩
  · rw [check_rule_eq_finish]
    exact finish_check_gen_error _ _ _ _ _ he
  · rw [check_rule_eq_finish]
    exact finish_check_parse_error _ _ _ _ _ _ hg hp

/-- Witness for C2 at a concrete failing generation call. -/
theorem C2_check_rule_fail_soft_witness :
    check_rule_compliance searchTwoChunks genRaising "confidentiality_clause" ruleConf
      = create_error_response "confidentiality_clause" ruleConf "503 quota exceeded" ∧
    dictGet "compliance_status"
        (check_rule_compliance searchTwoChunks genRaising "confidentiality_clause" ruleConf)
      = some (Json.str "Error") := by
  have h := C2_check_rule_fail_soft searchTwoChunks genRaising "confidentiality_clause" ruleConf
  have h1 := h.1 "503 quota exceeded" rfl
  exact ⟨h1, by rw [h1]; exact h.2.2 "503 quota exceeded"⟩

/-- Claim C7 (confirmed): with zero retrieved chunks the context is the
non-empty sentinel `"No relevant sections found."`, never the empty string;
with one or more chunks it is their contents joined in retrieval order; and
`check_rule_compliance` places exactly this context's prompt before the
generation call. -/
theorem C7_context_sentinel :
    (build_context [] = "No relevant sections found." ∧
      "No relevant sections found." ≠ "") ∧
    (∀ s ss, build_context (s :: ss) = String.intercalate "\n\n" (s :: ss)) ∧
    (∀ search generate rule_id rule,
      check_rule_compliance search generate rule_id rule
        = finish_check generate rule_id rule
            (retrieve_relevant_sections search (build_compliance_query rule) 5)) := by
  refine ⟨⟨rfl, by decide⟩, fun s ss => rfl, fun search generate rule_id rule => rfl⟩

/-- Claim C8 (confirmed): a raising similarity search is caught inside
`retrieve_relevant_sections` and treated as zero chunks, and the check
continues with the empty section list instead of aborting. -/
theorem C8_retrieval_failure_degrades
    (search : String → Nat → Except String (List String))
    (generate : String → Except String String) (rule_id : String) (rule : Rule)
    (e : String) (h : search (build_compliance_query rule) 5 = .error e) :
    retrieve_relevant_sections search (build_compliance_query rule) 5 = [] ∧
    check_rule_compliance search generate rule_id rule
      = finish_check generate rule_id rule [] := by
  have hr : retrieve_relevant_sections search (build_compliance_query rule) 5 = [] := by
    simp [retrieve_relevant_sections, h]
  exact ⟨hr, by rw [check_rule_eq_finish, hr]⟩

/-- Witness for C8 at a concrete raising document store. -/
theorem C8_retrieval_failure_degrades_witness :
    retrieve_relevant_sections searchRaising (build_compliance_query ruleConf) 5 = [] ∧
    check_rule_compliance searchRaising genRaising "confidentiality_clause" ruleConf
      = finish_check genRaising "confidentiality_clause" ruleConf [] := by
  exact C8_retrieval_failure_degrades searchRaising genRaising
    "confidentiality_clause" ruleConf "similarity search unavailable" rfl

/-- Claim C10 (confirmed): after locating the JSON substring the parser
deletes every occurrence of the literal markers "```json" and "```" inside
it, including occurrences inside JSON string values, so a valid response
whose evidence value contains a fence marker yields a successful verdict
whose evidence differs from the value the model produced. -/
theorem C10_fence_markers_deleted_inside_values :
    parse_response respFenceInValue
      = .ok (Json.obj [("evidence", Json.str "code  here"),
                       ("remediation", Json.str "x  y")]) ∧
    dictGet "evidence"
        (check_rule_compliance searchTwoChunks (fun _ => .ok respFenceInValue)
          "confidentiality_clause" ruleConf)
      = some (Json.str "code  here") ∧
    dictGet "remediation"
        (check_rule_compliance searchTwoChunks (fun _ => .ok respFenceInValue)
          "confidentiality_clause" ruleConf)
      = some (Json.str "x  y") ∧
    "code  here" ≠ "code ``` here" ∧ "x  y" ≠ "x ```json y" := by
  exact ⟨rfl, rfl, rfl, by decide, by decide⟩

theorem run_checks_go (search : String → Nat → Except String (List String))
    (generate : String → Except String String) :
    ∀ (rules : Dict Rule) (acc : Dict (Dict Json)),
      (rules.map Prod.fst).Nodup →
      (∀ k ∈ rules.map Prod.fst, k ∉ dictKeys acc) →
      dictKeys (rules.foldl
          (fun results p =>
            dictInsert p.1 (check_rule_compliance search generate p.1 p.2) results)
          acc)
        = dictKeys acc ++ rules.map Prod.fst := by
  intro rules
  induction rules with
  | nil => intro acc _ _; simp
  | cons p rest ih =>
      intro acc hnd hdisj
      obtain ⟨k, r⟩ := p
      simp only [List.map_cons, List.nodup_cons] at hnd
      have hk : k ∉ dictKeys acc := hdisj k (by simp)
      have hstep :
          dictInsert k (check_rule_compliance search generate k r) acc
            = acc ++ [(k, check_rule_compliance search generate k r)] :=
        dictInsert_fresh _ hk
      simp only [List.foldl_cons, hstep]
      rw [ih _ hnd.2]
      · simp [dictKeys]
      · intro k' hk'
        have hne : k' ≠ k := fun h => hnd.1 (h ▸ hk')
        have hnacc : k' ∉ dictKeys acc := hdisj k' (by simp [hk'])
        simp only [dictKeys, List.map_append, List.mem_append, List.map_cons, List.map_nil,
          List.mem_singleton, List.mem_cons, List.not_mem_nil, or_false]
        rintro (h | h)
        · exact hnacc h
        · exact hne h

/-- Claim C4 (confirmed): the batch loop over selected rules with distinct
ids produces a report keyed exactly by those ids, in order, with exactly
one entry per rule — regardless of what the retrieval and generation
functions do, in particular when every generation call fails. -/
theorem C4_run_all_one_entry_per_rule
    (search : String → Nat → Except String (List String))
    (generate : String → Except String String) (rules : Dict Rule)
    (h : (rules.map Prod.fst).Nodup) :
    dictKeys (run_compliance_checks search generate rules) = rules.map Prod.fst ∧
    (run_compliance_checks search generate rules).length = rules.length := by
  have hkeys := run_checks_go search generate rules [] h (by simp [dictKeys])
  simp only [dictKeys, List.map_nil, List.nil_append] at hkeys
  refine ⟨hkeys, ?_⟩
  have := congrArg List.length hkeys
  simpa using this

/-- Witness for C4: the full 16-rule catalog, with every generation call
failing, still yields one report entry per rule id. -/
theorem C4_run_all_one_entry_per_rule_witness :
    (RULES_DEFINITION.map Prod.fst).Nodup ∧
    dictKeys (run_compliance_checks searchTwoChunks genRaising RULES_DEFINITION)
      = RULES_DEFINITION.map Prod.fst ∧
    (run_compliance_checks searchTwoChunks genRaising RULES_DEFINITION).length = 16 := by
  have hnd : (RULES_DEFINITION.map Prod.fst).Nodup := by decide
  have h := C4_run_all_one_entry_per_rule searchTwoChunks genRaising RULES_DEFINITION hnd
  exact ⟨hnd, h.1, h.2⟩

/-- Claim C1 as stated is false: on a successful parse the category and
severity echoed by the model are NOT overwritten with the rule's canonical
values — here the model echoes category "X" and severity "Low" while the
rule's are "Confidentiality" and "High", and the verdict carries the
model's echo. -/
theorem C1_counterexample :
    dictGet "category"
        (check_rule_compliance searchTwoChunks (fun _ => .ok respWrongEcho)
          "confidentiality_clause" ruleConf)
      = some (Json.str "X") ∧
    dictGet "severity"
        (check_rule_compliance searchTwoChunks (fun _ => .ok respWrongEcho)
          "confidentiality_clause" ruleConf)
      = some (Json.str "Low") ∧
    ruleConf.category = "Confidentiality" ∧ ruleConf.severity = "High" ∧
    "X" ≠ "Confidentiality" ∧ "Low" ≠ "High" :=
  ⟨rfl, rfl, rfl, rfl, by decide, by decide⟩

/-- Claim C1 amended: on the error path the verdict's category and severity
are the Rule's canonical values, but on a successful parse the verdict is
exactly the model's decoded object with `relevant_sections` attached — the
echoed category and severity are trusted, not overwritten. -/
theorem C1_amended_error_path_only
    (search : String → Nat → Except String (List String))
    (generate : String → Except String String) (rule_id : String) (rule : Rule) :
    (∀ e, generate (build_prompt rule_id rule
          (build_context (retrieve_relevant_sections search (build_compliance_query rule) 5)))
        = .error e →
      dictGet "category" (check_rule_compliance search generate rule_id rule)
          = some (Json.str rule.category) ∧
      dictGet "severity" (check_rule_compliance search generate rule_id rule)
          = some (Json.str rule.severity)) ∧
    (∀ t fields, generate (build_prompt rule_id rule
          (build_context (retrieve_relevant_sections search (build_compliance_query rule) 5)))
        = .ok t → parse_response t = .ok (Json.obj fields) →
      check_rule_compliance search generate rule_id rule
        = dictInsert "relevant_sections"
            (Json.arr ((retrieve_relevant_sections search (build_compliance_query rule) 5).map
              Json.str))
            fields) := by
  constructor
  · intro e he
    have h : check_rule_compliance search generate rule_id rule
        = create_error_response rule_id rule e := by
      rw [check_rule_eq_finish]
      exact finish_check_gen_error _ _ _ _ _ he
    rw [h]
    exact ⟨by simp [create_error_response, dictGet], by simp [create_error_response, dictGet]⟩
  · intro t fields hg hp
    rw [check_rule_eq_finish]
    exact finish_check_success _ _ _ _ _ _ hg hp

/-- Witness for the amended C1: a failing generation call yields the rule's
canonical category/severity, and a successful parse passes through the
model's object unchanged except for attaching `relevant_sections`. -/
theorem C1_amended_error_path_only_witness :
    (dictGet "category"
        (check_rule_compliance searchTwoChunks genRaising "confidentiality_clause" ruleConf)
      = some (Json.str "Confidentiality")) ∧
    (check_rule_compliance searchTwoChunks (fun _ => .ok respWrongEcho)
        "confidentiality_clause" ruleConf
      = dictInsert "relevant_sections" (Json.arr [Json.str "chunk one", Json.str "chunk two"])
          [("category", Json.str "X"), ("severity", Json.str "Low"),
           ("compliance_status", Json.str "Compliant")]) := by
  constructor
  · exact ((C1_amended_error_path_only searchTwoChunks genRaising
      "confidentiality_clause" ruleConf).1 "503 quota exceeded" rfl).1
  · exact (C1_amended_error_path_only searchTwoChunks (fun _ => .ok respWrongEcho)
      "confidentiality_clause" ruleConf).2 respWrongEcho
      [("category", Json.str "X"), ("severity", Json.str "Low"),
       ("compliance_status", Json.str "Compliant")] rfl rfl

/-- Claim C3 as stated is false: the error verdict built by
`_create_error_response` in `src/compliance_checker.py` has no
`relevant_sections` key at all, even though two chunks were retrieved. -/
theorem C3_counterexample :
    retrieve_relevant_sections searchTwoChunks (build_compliance_query ruleConf) 5
      = ["chunk one", "chunk two"] ∧
    dictGet "relevant_sections"
        (check_rule_compliance searchTwoChunks genRaising "confidentiality_clause" ruleConf)
      = none :=
  ⟨rfl, rfl⟩

/-- Claim C3 amended: when the generation call fails the Error verdict
carries evidence describing the failure cause and confidence Low with the
rule's category and severity, but the retrieved chunks are NOT attached:
the `src/compliance_checker.py` error verdict omits `relevant_sections`
entirely, and the `app.py` variant attaches an empty list instead of the
retrieved chunks. -/
theorem C3_amended_chunks_dropped
    (search : String → Nat → Except String (List String))
    (generate : String → Except String String) (rule_id : String) (rule : Rule)
    (e : String)
    (he : generate (build_prompt rule_id rule
          (build_context (retrieve_relevant_sections search (build_compliance_query rule) 5)))
        = .error e) :
    dictGet "relevant_sections" (check_rule_compliance search generate rule_id rule) = none ∧
    dictGet "evidence" (check_rule_compliance search generate rule_id rule)
      = some (Json.str ("Analysis error: " ++ e)) ∧
    dictGet "confidence" (check_rule_compliance search generate rule_id rule)
      = some (Json.str "Low") ∧
    dictGet "category" (check_rule_compliance search generate rule_id rule)
      = some (Json.str rule.category) ∧
    dictGet "severity" (check_rule_compliance search generate rule_id rule)
      = some (Json.str rule.severity) ∧
    (∀ e', dictGet "relevant_sections" (app_create_error_response rule_id rule e')
      = some (Json.arr [])) := by
  have h : check_rule_compliance search generate rule_id rule
      = create_error_response rule_id rule e := by
    rw [check_rule_eq_finish]
    exact finish_check_gen_error _ _ _ _ _ he
  rw [h]
  refine ⟨by simp [create_error_response, dictGet], by simp [create_error_response, dictGet],
    by simp [create_error_response, dictGet], by simp [create_error_response, dictGet],
    by simp [create_error_response, dictGet],
    fun e' => by simp [app_create_error_response, dictGet]⟩

/-- Witness for the amended C3 at a concrete failing generation call. -/
theorem C3_amended_chunks_dropped_witness :
    dictGet "relevant_sections"
        (check_rule_compliance searchTwoChunks genRaising "confidentiality_clause" ruleConf)
      = none ∧
    dictGet "evidence"
        (check_rule_compliance searchTwoChunks genRaising "confidentiality_clause" ruleConf)
      = some (Json.str ("Analysis error: " ++ "503 quota exceeded")) := by
  have h := C3_amended_chunks_dropped searchTwoChunks genRaising
    "confidentiality_clause" ruleConf "503 quota exceeded" rfl
  exact ⟨h.1, h.2.1⟩

/-- Claim C6 as stated is false: a syntactically valid response whose
compliance_status and confidence values lie outside the enumerated sets is
NOT treated as a parse failure — the out-of-set values pass straight
through into the verdict. -/
theorem C6_counterexample :
    dictGet "compliance_status"
        (check_rule_compliance searchTwoChunks (fun _ => .ok respOutOfSet)
          "confidentiality_clause" ruleConf)
      = some (Json.str "Banana") ∧
    dictGet "confidence"
        (check_rule_compliance searchTwoChunks (fun _ => .ok respOutOfSet)
          "confidentiality_clause" ruleConf)
      = some (Json.str "Sure") ∧
    ("Banana" : String) ∉
      (["Compliant", "Non-Compliant", "Partially Compliant", "NonCompliant",
        "PartiallyCompliant", "Error"] : List String) ∧
    ("Sure" : String) ∉ (["High", "Medium", "Low"] : List String) :=
  ⟨rfl, rfl, by decide, by decide⟩

/-- Claim C6 amended: the parser performs no validation of enumerated
values; whatever compliance_status and confidence the decoded object
contains — in the closed sets or not — appear unchanged in the returned
verdict.  Only a missing or undecodable JSON object produces an Error
verdict. -/
theorem C6_amended_no_enum_validation
    (search : String → Nat → Except String (List String))
    (generate : String → Except String String) (rule_id : String) (rule : Rule)
    (t : String) (fields : Dict Json) (s c : Json)
    (hg : generate (build_prompt rule_id rule
          (build_context (retrieve_relevant_sections search (build_compliance_query rule) 5)))
        = .ok t)
    (hp : parse_response t = .ok (Json.obj fields)) :
    (dictGet "compliance_status" fields = some s →
      dictGet "compliance_status" (check_rule_compliance search generate rule_id rule)
        = some s) ∧
    (dictGet "confidence" fields = some c →
      dictGet "confidence" (check_rule_compliance search generate rule_id rule) = some c) := by
  have h : check_rule_compliance search generate rule_id rule
      = dictInsert "relevant_sections"
          (Json.arr ((retrieve_relevant_sections search (build_compliance_query rule) 5).map
            Json.str))
          fields := by
    rw [check_rule_eq_finish]
    exact finish_check_success _ _ _ _ _ _ hg hp
  rw [h]
  constructor
  · intro hs
    rw [dictGet_dictInsert_ne _ _ (by decide)]
    exact hs
  · intro hc
    rw [dictGet_dictInsert_ne _ _ (by decide)]
    exact hc

/-- Witness for the amended C6: the out-of-set values "Banana" and "Sure"
pass through. -/
theorem C6_amended_no_enum_validation_witness :
    dictGet "compliance_status"
        (check_rule_compliance searchTwoChunks (fun _ => .ok respOutOfSet)
          "confidentiality_clause" ruleConf)
      = some (Json.str "Banana") ∧
    dictGet "confidence"
        (check_rule_compliance searchTwoChunks (fun _ => .ok respOutOfSet)
          "confidentiality_clause" ruleConf)
      = some (Json.str "Sure") := by
  have h := C6_amended_no_enum_validation searchTwoChunks (fun _ => .ok respOutOfSet)
    "confidentiality_clause" ruleConf respOutOfSet
    [("compliance_status", Json.str "Banana"), ("confidence", Json.str "Sure")]
    (Json.str "Banana") (Json.str "Sure") rfl rfl
  exact ⟨h.1 rfl, h.2 rfl⟩


theorem bumpCount_sum (k : Json) (l : List (Json × Nat)) :
    ((bumpCount k l).map Prod.snd).sum = (l.map Prod.snd).sum + 1 := by
  induction l with
  | nil => simp [bumpCount]
  | cons p rest ih =>
      obtain ⟨k', n⟩ := p
      by_cases h : Json.beq k' k
      · simp [bumpCount, h]
        omega
      · simp [bumpCount, h, ih]
        omega

theorem bumpCount_strKeys {l : List (Json × Nat)} (s' : String) (h : StrKeys l) :
    StrKeys (bumpCount (Json.str s') l) := by
  induction l with
  | nil =>
      intro p hp
      simp [bumpCount] at hp
      exact ⟨s', by simp [hp]⟩
  | cons q rest ih =>
      obtain ⟨k0, n⟩ := q
      have hk0 := h (k0, n) (by simp)
      by_cases hb : Json.beq k0 (Json.str s')
      · intro p hp
        simp [bumpCount, hb] at hp
        rcases hp with hp | hp
        · exact ⟨hk0.choose, by simp [hp]; exact hk0.choose_spec⟩
        · exact h p (by simp [hp])
      · intro p hp
        simp [bumpCount, hb] at hp
        rcases hp with hp | hp
        · exact h (k0, n) (by simp) |>.imp (fun s hs => by simp [hp]; exact hs)
        · exact ih (fun q hq => h q (by simp [hq])) p hp

theorem beq_str_str (a b : String) : Json.beq (Json.str a) (Json.str b) = (a == b) := rfl

theorem bumpCount_mem_keys (s s' : String) (l : List (Json × Nat)) (h : StrKeys l) :
    Json.str s ∈ (bumpCount (Json.str s') l).map Prod.fst ↔
      (Json.str s ∈ l.map Prod.fst ∨ s = s') := by
  induction l with
  | nil => simp [bumpCount, Json.str.injEq]
  | cons q rest ih =>
      obtain ⟨k0, n⟩ := q
      obtain ⟨a, ha⟩ := h (k0, n) (by simp)
      subst ha
      by_cases hb : Json.beq (Json.str a) (Json.str s')
      · rw [beq_str_str] at hb
        have has' : a = s' := by simpa using hb
        subst has'
        simp [bumpCount, beq_str_str, Json.str.injEq]
        tauto
      · rw [beq_str_str] at hb
        have has' : a ≠ s' := by simpa using hb
        have ihr := ih (fun q hq => h q (by simp [hq]))
        simp [bumpCount, beq_str_str, has', Json.str.injEq] at ihr ⊢
        rw [ihr]
        tauto

theorem countLookup_absent (s : String) (l : List (Json × Nat)) (h : StrKeys l)
    (hmem : Json.str s ∉ l.map Prod.fst) : countLookup (Json.str s) l = 0 := by
  induction l with
  | nil => rfl
  | cons q rest ih =>
      obtain ⟨k0, n⟩ := q
      obtain ⟨a, ha⟩ := h (k0, n) (by simp)
      subst ha
      simp only [List.map_cons, List.mem_cons] at hmem
      push_neg at hmem
      have hne : a ≠ s := fun hh => hmem.1 (by simp [hh])
      have : Json.beq (Json.str a) (Json.str s) = false := by
        rw [beq_str_str]
        simpa using hne
      simp [countLookup, this]
      exact ih (fun q hq => h q (by simp [hq])) hmem.2

theorem summary_counts_go (report : Dict (Dict Json)) :
    ∀ acc : List (Json × Nat),
      (∀ p ∈ report, ∃ s : String, dictGet "compliance_status" p.2 = some (Json.str s)) →
      StrKeys acc →
      ∃ counts,
        report.foldl
            (fun a p =>
              match a, dictGet "compliance_status" p.2 with
              | some counts, some s => some (bumpCount s counts)
              | _, _ => none)
            (some acc) = some counts ∧
        StrKeys counts ∧
        (counts.map Prod.snd).sum = (acc.map Prod.snd).sum + report.length ∧
        (∀ s : String, Json.str s ∈ counts.map Prod.fst ↔
          (Json.str s ∈ acc.map Prod.fst ∨
            some (Json.str s) ∈ report.map (fun p => dictGet "compliance_status" p.2))) := by
  induction report with
  | nil =>
      intro acc _ hacc
      exact ⟨acc, rfl, hacc, by simp, fun s => by simp⟩
  | cons p rest ih =>
      intro acc h hacc
      obtain ⟨s0, hs0⟩ := h p (by simp)
      obtain ⟨counts, hfold, hsk, hsum, hmem⟩ :=
        ih (bumpCount (Json.str s0) acc) (fun q hq => h q (by simp [hq]))
          (bumpCount_strKeys s0 hacc)
      refine ⟨counts, ?_, hsk, ?_, ?_⟩
      · simpa [hs0] using hfold
      · rw [hsum, bumpCount_sum]
        simp
        omega
      · intro s
        rw [hmem s, bumpCount_mem_keys s s0 acc hacc]
        simp only [List.map_cons, List.mem_cons, hs0, Option.some.injEq, Json.str.injEq]
        tauto

/-- Claim C9 as stated is false: the summary mapping built by
`display_results` contains only the statuses that actually occur in the
report — for a report whose single verdict is an Error verdict, the mapping
is exactly one entry and carries no "Compliant" (nor any other) key. -/
theorem C9_counterexample :
    summary_counts
        [("confidentiality_clause",
          create_error_response "confidentiality_clause" ruleConf "boom")]
      = some [(Json.str "Error", 1)] ∧
    Json.str "Compliant" ∉ ([(Json.str "Error", (1 : Nat))].map Prod.fst) :=
  ⟨rfl, by simp [Json.str.injEq]⟩

/-- Claim C9 amended: over a report in which every verdict carries a string
compliance_status, the summary loop succeeds, its counts sum to the
report's total entry count, its keys are exactly the distinct statuses
actually present (absent statuses are not zero-filled into the mapping),
and the `.get`-style lookup the display performs returns 0 for any absent
status. -/
theorem C9_amended_counts_sum (report : Dict (Dict Json))
    (h : ∀ p ∈ report, ∃ s : String, dictGet "compliance_status" p.2 = some (Json.str s)) :
    ∃ counts, summary_counts report = some counts ∧
      (counts.map Prod.snd).sum = report.length ∧
      (∀ s : String, Json.str s ∈ counts.map Prod.fst ↔
        some (Json.str s) ∈ report.map (fun p => dictGet "compliance_status" p.2)) ∧
      (∀ s : String, Json.str s ∉ counts.map Prod.fst →
        countLookup (Json.str s) counts = 0) := by
  obtain ⟨counts, hfold, hsk, hsum, hmem⟩ :=
    summary_counts_go report [] h (fun p hp => absurd hp (List.not_mem_nil p))
  refine ⟨counts, hfold, by simpa using hsum, fun s => ?_, fun s hs =>
    countLookup_absent s counts hsk hs⟩
  rw [hmem s]
  simp

/-- Witness for the amended C9: a two-entry report (one Error verdict, one
Compliant verdict) has a summary that sums to 2 with exactly those two
status keys. -/
theorem C9_amended_counts_sum_witness :
    (∀ p ∈ ([("confidentiality_clause",
            create_error_response "confidentiality_clause" ruleConf "boom"),
          ("term_duration", [("compliance_status", Json.str "Compliant")])] :
          Dict (Dict Json)),
      ∃ s : String, dictGet "compliance_status" p.2 = some (Json.str s)) ∧
    ∃ counts,
      summary_counts
          [("confidentiality_clause",
            create_error_response "confidentiality_clause" ruleConf "boom"),
           ("term_duration", [("compliance_status", Json.str "Compliant")])]
        = some counts ∧
      (counts.map Prod.snd).sum = 2 ∧
      (∀ s : String, Json.str s ∈ counts.map Prod.fst ↔
        some (Json.str s) ∈
          ([("confidentiality_clause",
             create_error_response "confidentiality_clause" ruleConf "boom"),
            ("term_duration", [("compliance_status", Json.str "Compliant")])] :
            Dict (Dict Json)).map (fun p => dictGet "compliance_status" p.2)) ∧
      (∀ s : String, Json.str s ∉ counts.map Prod.fst →
        countLookup (Json.str s) counts = 0) := by
  have hyp : ∀ p ∈ ([("confidentiality_clause",
        create_error_response "confidentiality_clause" ruleConf "boom"),
      ("term_duration", [("compliance_status", Json.str "Compliant")])] :
      Dict (Dict Json)),
      ∃ s : String, dictGet "compliance_status" p.2 = some (Json.str s) := by
    intro p hp
    simp only [List.mem_cons, List.not_mem_nil, or_false] at hp
    rcases hp with rfl | rfl
    · exact ⟨"Error", rfl⟩
    · exact ⟨"Compliant", rfl⟩
  exact ⟨hyp, C9_amended_counts_sum _ hyp⟩

theorem isBrace_false_ne (c : Char) (h : isBrace c = false) : c ≠ '{' ∧ c ≠ '}' := by
  simp [isBrace] at h
  exact ⟨h.1, h.2⟩

theorem aTailEndGo_nonbrace (q : List Char) :
    ∀ (idx : Nat) (prev : Option Char) (best : Option Nat),
      (∀ c ∈ q, isBrace c = false) → aTailEndGo q idx prev best = best := by
  induction q with
  | nil => intro idx prev best _; rfl
  | cons c cs ih =>
      intro idx prev best h
      obtain ⟨h1, h2⟩ := isBrace_false_ne c (h c (by simp))
      simp only [aTailEndGo, if_neg h2, if_neg h1]
      exact ih _ _ _ (fun c' hc' => h c' (by simp [hc']))

theorem aTailEndGo_append (t q : List Char) (hq : ∀ c ∈ q, isBrace c = false) :
    ∀ (idx : Nat) (prev : Option Char) (best : Option Nat),
      aTailEndGo (t ++ q) idx prev best = aTailEndGo t idx prev best := by
  induction t with
  | nil =>
      intro idx prev best
      simpa using aTailEndGo_nonbrace q idx prev best hq
  | cons c cs ih =>
      intro idx prev best
      simp only [List.cons_append, aTailEndGo]
      by_cases h1 : c = '}'
      · simp only [if_pos h1]
        exact ih _ _ _
      · by_cases h2 : c = '{'
        · simp only [if_neg h1, if_pos h2]
          exact ih _ _ _
        · simp only [if_neg h1, if_neg h2]
          exact ih _ _ _

theorem aTailEndGo_bound (t : List Char) :
    ∀ (idx : Nat) (prev : Option Char) (best : Option Nat),
      (∀ m, best = some m → m < idx) →
      ∀ m, aTailEndGo t idx prev best = some m → m < idx + t.length := by
  induction t with
  | nil =>
      intro idx prev best hbest m hm
      simpa using hbest m hm
  | cons c cs ih =>
      intro idx prev best hbest m hm
      simp only [aTailEndGo] at hm
      by_cases h1 : c = '}'
      · rw [if_pos h1] at hm
        have hbest' : ∀ m', (if prev = some '}' then some idx else best) = some m' →
            m' < idx + 1 := by
          intro m' hm'
          by_cases hp : prev = some '}'
          · rw [if_pos hp] at hm'
            have : idx = m' := by injection hm'
            omega
          · rw [if_neg hp] at hm'
            have := hbest m' hm'
            omega
        have hres := ih (idx + 1) (some '}') _ hbest' m hm
        simp only [List.length_cons]
        omega
      · rw [if_neg h1] at hm
        by_cases h2 : c = '{'
        · rw [if_pos h2] at hm
          have hres := ih (idx + 1) (some '{') best
            (fun m' hm' => by have := hbest m' hm'; omega) m hm
          simp only [List.length_cons]
          omega
        · rw [if_neg h2] at hm
          have hres := ih (idx + 1) prev best
            (fun m' hm' => by have := hbest m' hm'; omega) m hm
          simp only [List.length_cons]
          omega

theorem aTailEnd_append (t q : List Char) (hq : ∀ c ∈ q, isBrace c = false) :
    aTailEnd (t ++ q) = aTailEnd t :=
  aTailEndGo_append t q hq 0 none none

theorem aTailEnd_bound (t : List Char) (e : Nat) (h : aTailEnd t = some e) :
    e < t.length := by
  have := aTailEndGo_bound t 0 none none (fun m hm => by cases hm) e h
  omega

theorem lastCloseGo_nonclose (q : List Char) :
    ∀ (idx : Nat) (best : Option Nat),
      (∀ c ∈ q, c ≠ '}') → lastCloseGo q idx best = best := by
  induction q with
  | nil => intro idx best _; rfl
  | cons c cs ih =>
      intro idx best h
      simp only [lastCloseGo, if_neg (h c (by simp))]
      exact ih _ _ (fun c' hc' => h c' (by simp [hc']))

theorem lastCloseGo_append (t q : List Char) (hq : ∀ c ∈ q, c ≠ '}') :
    ∀ (idx : Nat) (best : Option Nat),
      lastCloseGo (t ++ q) idx best = lastCloseGo t idx best := by
  induction t with
  | nil =>
      intro idx best
      simpa using lastCloseGo_nonclose q idx best hq
  | cons c cs ih =>
      intro idx best
      simp only [List.cons_append, lastCloseGo]
      exact ih _ _

theorem lastCloseGo_bound (t : List Char) :
    ∀ (idx : Nat) (best : Option Nat),
      (∀ m, best = some m → m < idx) →
      ∀ m, lastCloseGo t idx best = some m → m < idx + t.length := by
  induction t with
  | nil =>
      intro idx best hbest m hm
      simpa using hbest m hm
  | cons c cs ih =>
      intro idx best hbest m hm
      simp only [lastCloseGo] at hm
      have hbest' : ∀ m', (if c = '}' then some idx else best) = some m' → m' < idx + 1 := by
        intro m' hm'
        by_cases hc : c = '}'
        · rw [if_pos hc] at hm'
          have : idx = m' := by injection hm'
          omega
        · rw [if_neg hc] at hm'
          have := hbest m' hm'
          omega
      have hres := ih (idx + 1) _ hbest' m hm
      simp only [List.length_cons]
      omega

theorem lastCloseGo_some (t : List Char) :
    ∀ (idx j : Nat), ∃ j', lastCloseGo t idx (some j) = some j' := by
  induction t with
  | nil => intro idx j; exact ⟨j, rfl⟩
  | cons c cs ih =>
      intro idx j
      simp only [lastCloseGo]
      by_cases hc : c = '}'
      · rw [if_pos hc]
        exact ih _ _
      · rw [if_neg hc]
        exact ih _ _

theorem lastCloseGo_isSome (t : List Char) :
    ∀ (idx : Nat) (best : Option Nat), '}' ∈ t → ∃ j, lastCloseGo t idx best = some j := by
  induction t with
  | nil => intro idx best h; cases h
  | cons c cs ih =>
      intro idx best h
      simp only [lastCloseGo]
      by_cases hc : c = '}'
      · rw [if_pos hc]
        exact lastCloseGo_some cs _ _
      · rw [if_neg hc]
        apply ih
        rcases List.mem_cons.mp h with h1 | h1
        · exact absurd h1.symm hc
        · exact h1

theorem lastCloseIndex_append (t q : List Char) (hq : ∀ c ∈ q, c ≠ '}') :
    lastCloseIndex (t ++ q) = lastCloseIndex t :=
  lastCloseGo_append t q hq 0 none

theorem lastCloseIndex_bound (t : List Char) (j : Nat) (h : lastCloseIndex t = some j) :
    j < t.length := by
  have := lastCloseGo_bound t 0 none (fun m hm => by cases hm) j h
  omega

theorem lastCloseIndex_isSome (t : List Char) (h : '}' ∈ t) :
    ∃ j, lastCloseIndex t = some j :=
  lastCloseGo_isSome t 0 none h

theorem dropWhile_head_false {p : Char → Bool} :
    ∀ (l : List Char) (c : Char) (cs : List Char),
      l.dropWhile p = c :: cs → p c = false := by
  intro l
  induction l with
  | nil => intro c cs h; cases h
  | cons d ds ih =>
      intro c cs h
      by_cases hp : p d
      · rw [List.dropWhile_cons_of_pos hp] at h
        exact ih c cs h
      · rw [List.dropWhile_cons_of_neg hp] at h
        cases h
        simpa using hp

theorem takeWhile_append_stop {p : Char → Bool} :
    ∀ (b q : List Char), (∃ x ∈ b, p x = false) →
      (b ++ q).takeWhile p = b.takeWhile p ∧
      (b ++ q).dropWhile p = b.dropWhile p ++ q := by
  intro b
  induction b with
  | nil =>
      intro q h
      obtain ⟨x, hx, _⟩ := h
      cases hx
  | cons c cs ih =>
      intro q h
      by_cases hp : p c
      · have hex : ∃ x ∈ cs, p x = false := by
          obtain ⟨x, hx, hpx⟩ := h
          rcases List.mem_cons.mp hx with rfl | hx'
          · rw [hp] at hpx
            cases hpx
          · exact ⟨x, hx', hpx⟩
        obtain ⟨h1, h2⟩ := ih q hex
        constructor
        · simp only [List.cons_append, List.takeWhile_cons_of_pos hp, h1]
        · simp only [List.cons_append, List.dropWhile_cons_of_pos hp, h2]
      · constructor
        · simp only [List.cons_append, List.takeWhile_cons_of_neg hp]
        · simp only [List.cons_append, List.dropWhile_cons_of_neg hp]

theorem matchAt_append (b q : List Char) (hq : ∀ c ∈ q, isBrace c = false)
    (hb : '}' ∈ b) : matchAt (b ++ q) = matchAt b := by
  have hqne : ∀ c ∈ q, c ≠ '}' := fun c hc => (isBrace_false_ne c (hq c hc)).2
  have hex : ∃ x ∈ b, (fun c => !isBrace c) x = false := ⟨'}', hb, by simp [isBrace]⟩
  obtain ⟨htw, hdw⟩ := takeWhile_append_stop b q hex
  cases hcase : b.dropWhile (fun c => !isBrace c) with
  | nil =>
      exfalso
      rw [List.dropWhile_eq_nil_iff] at hcase
      have := hcase '}' hb
      simp [isBrace] at this
  | cons c rest3 =>
      have hblen : b.length = (b.takeWhile (fun c => !isBrace c)).length + 1 + rest3.length := by
        conv_lhs => rw [← List.takeWhile_append_dropWhile (fun c => !isBrace c) b]
        rw [hcase]
        simp
        omega
      by_cases hc : c = '{'
      · cases haTE : aTailEnd rest3 with
        | some e =>
            have hlt := aTailEnd_bound rest3 e haTE
            have htake :
                (b ++ q).take ((b.takeWhile (fun c => !isBrace c)).length + 1 + e + 1)
                  = b.take ((b.takeWhile (fun c => !isBrace c)).length + 1 + e + 1) :=
              List.take_append_of_le_length (by omega)
            simp only [matchAt, htw, hdw, hcase, List.cons_append, if_pos hc,
              aTailEnd_append rest3 q hq, haTE, Option.map, htake]
        | none =>
            obtain ⟨j, hj⟩ := lastCloseIndex_isSome b hb
            have hjlt := lastCloseIndex_bound b j hj
            have htake : (b ++ q).take (j + 1) = b.take (j + 1) :=
              List.take_append_of_le_length (by omega)
            simp only [matchAt, htw, hdw, hcase, List.cons_append, if_pos hc,
              aTailEnd_append rest3 q hq, haTE, Option.map,
              lastCloseIndex_append b q hqne, hj, htake]
      · obtain ⟨j, hj⟩ := lastCloseIndex_isSome b hb
        have hjlt := lastCloseIndex_bound b j hj
        have htake : (b ++ q).take (j + 1) = b.take (j + 1) :=
          List.take_append_of_le_length (by omega)
        simp only [matchAt, htw, hdw, hcase, List.cons_append, if_neg hc,
          lastCloseIndex_append b q hqne, hj, htake]

theorem regex_extract_skip (a rest : List Char) (ha : ∀ c ∈ a, c ≠ '{') :
    regex_extract (a ++ rest) = regex_extract rest := by
  induction a with
  | nil => rfl
  | cons c cs ih =>
      simp only [List.cons_append, regex_extract, if_neg (ha c (by simp))]
      exact ih (fun c' hc' => ha c' (by simp [hc']))

theorem regex_extract_append (p j q : List Char)
    (hp : ∀ c ∈ p, isBrace c = false) (hq : ∀ c ∈ q, isBrace c = false)
    (hj : hasOpenClose j = true) :
    regex_extract (p ++ j ++ q) = regex_extract j := by
  have hpne : ∀ c ∈ p, c ≠ '{' := fun c hc => (isBrace_false_ne c (hp c hc)).1
  rw [List.append_assoc, regex_extract_skip p (j ++ q) hpne]
  induction j with
  | nil => cases hj
  | cons c cs ih =>
      by_cases hc : c = '{'
      · subst hc
        simp only [hasOpenClose, if_pos rfl] at hj
        have hmem : '}' ∈ cs := by simpa using hj
        simp only [List.cons_append, regex_extract, if_pos rfl]
        exact matchAt_append cs q hq hmem
      · simp only [hasOpenClose, if_neg hc] at hj
        simp only [List.cons_append, regex_extract, if_neg hc]
        exact ih hj

theorem parse_response_append (pre post J : String)
    (hpre : ∀ c ∈ pre.toList, isBrace c = false)
    (hpost : ∀ c ∈ post.toList, isBrace c = false)
    (hJ : hasOpenClose J.toList = true) :
    parse_response (pre ++ J ++ post) = parse_response J := by
  unfold parse_response
  have h : regex_extract (pre ++ J ++ post).toList = regex_extract J.toList := by
    have : (pre ++ J ++ post).toList = pre.toList ++ J.toList ++ post.toList := by
      simp
    rw [this]
    exact regex_extract_append _ _ _ hpre hpost hJ
  rw [h]

/-- Claim C5 as stated is false: surrounding prose may itself contain brace
characters, in which case the greedy extraction grabs from the first
opening brace of the prose and decoding fails — here a syntactically valid
JSON object J decodes to a Compliant verdict when returned alone, but
returns an Error verdict when wrapped in prose containing a braced aside. -/
theorem C5_counterexample :
    json_loads respValidJson
      = some (Json.obj [("compliance_status", Json.str "Compliant"),
                        ("confidence", Json.str "High")]) ∧
    dictGet "compliance_status"
        (check_rule_compliance searchTwoChunks (fun _ => .ok respValidJsonInBracedProse)
          "confidentiality_clause" ruleConf)
      = some (Json.str "Error") ∧
    dictGet "compliance_status"
        (check_rule_compliance searchTwoChunks (fun _ => .ok respValidJson)
          "confidentiality_clause" ruleConf)
      = some (Json.str "Compliant") ∧
    "Error" ≠ "Compliant" :=
  ⟨rfl, rfl, rfl, by decide⟩

/-- Claim C5 amended: if the surrounding prose and fence markers contain no
brace characters (and the inner text contains an opening brace later
followed by a closing one), then `check_rule_compliance` on the wrapped
response returns exactly the verdict it returns on the inner text alone —
the extraction, fence-stripping and decode see the same substring, so all
fields agree.  Prose containing braces can change the extracted substring,
as the counterexample shows. -/
theorem C5_amended_brace_free_noise
    (search : String → Nat → Except String (List String))
    (rule_id : String) (rule : Rule) (pre post J : String)
    (hpre : ∀ c ∈ pre.toList, isBrace c = false)
    (hpost : ∀ c ∈ post.toList, isBrace c = false)
    (hJ : hasOpenClose J.toList = true) :
    check_rule_compliance search (fun _ => .ok (pre ++ J ++ post)) rule_id rule
      = check_rule_compliance search (fun _ => .ok J) rule_id rule := by
  have hparse := parse_response_append pre post J hpre hpost hJ
  simp only [check_rule_compliance, finish_check]
  rw [hparse]

/-- Witness for the amended C5: a response fenced in brace-free prose
yields exactly the same verdict as the bare JSON. -/
theorem C5_amended_brace_free_noise_witness :
    (∀ c ∈ proseBefore.toList, isBrace c = false) ∧
    (∀ c ∈ proseAfter.toList, isBrace c = false) ∧
    hasOpenClose respValidJson.toList = true ∧
    check_rule_compliance searchTwoChunks
        (fun _ => .ok (proseBefore ++ respValidJson ++ proseAfter))
        "confidentiality_clause" ruleConf
      = check_rule_compliance searchTwoChunks (fun _ => .ok respValidJson)
        "confidentiality_clause" ruleConf :=
  ⟨by decide, by decide, by decide,
    C5_amended_brace_free_noise searchTwoChunks "confidentiality_clause" ruleConf
      proseBefore proseAfter respValidJson (by decide) (by decide) (by decide)⟩
